import Mathlib

/-!
Verification development for the CMS Compliance Assistant repository.

Python strings are embedded as `List Char` (`Str`); Python lists as Lean
lists.  The tiktoken encoder used by `backend/ingestion/chunker.py` is an
external library, so it is embedded as an abstract `Tokenizer`
(an `encode`/`decode` pair); theorems about the chunker take the
tokenizer properties they rely on as explicit hypotheses, and concrete
tokenizers (a whitespace word tokenizer, a degenerate empty tokenizer)
instantiate them.  Python `int` subtraction appearing in budget
comparisons is embedded through `Int` to keep the (possibly negative)
`chunk_size - header_tokens` faithful.
-/

namespace CMS

/-- Python strings, embedded as lists of characters. -/
abbrev Str := List Char

/-- Python `\s` for the ASCII range (` `, `\t`, `\n`, `\r`, `\x0b`, `\x0c`),
used by `re.split` patterns and `str.strip()`. -/
def isPyWS (c : Char) : Bool :=
  c = ' ' || c = '\t' || c = '\n' || c = '\r' || c = '\x0b' || c = '\x0c'

/-- Python `str.strip()`: drop leading and trailing whitespace. -/
def pyStrip (s : Str) : Str :=
  ((s.dropWhile isPyWS).reverse.dropWhile isPyWS).reverse

/-- Python `" ".join(xs)`. -/
def joinSp : List Str → Str
  | [] => []
  | [x] => x
  | x :: xs => x ++ ' ' :: joinSp xs

/-- Python `needle in hay` (substring containment test). -/
def containsSub (needle hay : Str) : Bool :=
  hay.tails.any (fun t => needle.isPrefixOf t)

/-- Python `s.lower()` (per-character, ASCII-adequate). -/
def pyLower (s : Str) : Str := s.map Char.toLower

/-- Abstract embedding of the external tiktoken encoding: token ids are
represented by their decoded strings. -/
structure Tokenizer where
  encode : Str → List Str
  decode : List Str → Str

/-- Embeds `TextChunker._count_tokens`: `len(self.encoding.encode(text))`. -/
def count_tokens (tok : Tokenizer) (s : Str) : Nat := (tok.encode s).length

/-- Embeds `TextChunker._get_overlap_text`: join the buffer with spaces; if its
token count exceeds `chunk_overlap`, keep only the last `chunk_overlap`
tokens, decoded back to text. -/
def get_overlap_text (tok : Tokenizer) (chunk_overlap : Nat) (chunks : List Str) : Str :=
  if chunks = [] then []
  else
    let combined := joinSp chunks
    let tokens := tok.encode combined
    if tokens.length ≤ chunk_overlap then combined
    else
      -- `tokens[-overlap_tokens:]`: for a positive count this keeps the last
      -- `chunk_overlap` tokens, but Python's `tokens[-0:]` is the whole list.
      let overlap_token_ids :=
        if chunk_overlap = 0 then tokens
        else tokens.drop (tokens.length - chunk_overlap)
      tok.decode overlap_token_ids

/-- Loop state of the accumulation loops in `_create_chunks_from_paragraphs`
and `_create_chunks_from_sentences`: emitted chunks, current buffer, and
the running `current_tokens` counter. -/
structure ChunkAcc where
  chunks : List Str
  cur : List Str
  curTokens : Nat
deriving DecidableEq

/-- Embeds `current_chunk = [overlap_text, next] if overlap_text else [next]`:
the buffer seeded after a flush. -/
def overlapSeed (tok : Tokenizer) (chunk_overlap : Nat) (cur : List Str) (next : Str) :
    List Str :=
  if get_overlap_text tok chunk_overlap cur = [] then [next]
  else [get_overlap_text tok chunk_overlap cur, next]

/-- The trailing `if current_chunk: chunks.append(...)` flush shared by
both chunk-building loops. -/
def finalFlush (header_context : Str) (acc : ChunkAcc) : List Str :=
  if acc.cur = [] then acc.chunks else acc.chunks ++ [header_context ++ joinSp acc.cur]

/-- One iteration of the sentence loop in
`TextChunker._create_chunks_from_sentences`. -/
def sentStep (tok : Tokenizer) (chunk_size chunk_overlap header_tokens : Nat)
    (header_context : Str) (acc : ChunkAcc) (sentence : Str) : ChunkAcc :=
  if (acc.curTokens : Int) + count_tokens tok sentence >
      (chunk_size : Int) - header_tokens then
    if acc.cur ≠ [] then
      { chunks := acc.chunks ++ [header_context ++ joinSp acc.cur],
        cur := overlapSeed tok chunk_overlap acc.cur sentence,
        curTokens := count_tokens tok (joinSp (overlapSeed tok chunk_overlap acc.cur sentence)) }
    else
      { chunks := acc.chunks ++ [header_context ++ sentence], cur := [], curTokens := 0 }
  else
    { chunks := acc.chunks, cur := acc.cur ++ [sentence],
      curTokens := acc.curTokens + count_tokens tok sentence }

/-- Embeds `TextChunker._create_chunks_from_sentences`. -/
def create_chunks_from_sentences (tok : Tokenizer) (chunk_size chunk_overlap : Nat)
    (header_context : Str) (header_tokens : Nat) (sentences : List Str) : List Str :=
  finalFlush header_context
    (sentences.foldl
      (sentStep tok chunk_size chunk_overlap header_tokens header_context)
      ⟨[], [], 0⟩)

/-- Regex match of `\n\n+|\n\s*\n` at the head of the text (the separator
pattern of `_split_into_paragraphs`); returns the match length.  The first
alternative is preferred and greedy; the second backtracks its `\s*` to the
last `\n` inside the whitespace run. -/
def matchParaSep : Str → Option Nat
  | '\n' :: rest =>
    let nlRun := (rest.takeWhile (fun c => c = '\n')).length
    if 1 ≤ nlRun then some (1 + nlRun)
    else
      let wsRun := rest.takeWhile isPyWS
      match (wsRun.reverse).findIdx? (fun c => c = '\n') with
      | some j => some (wsRun.length - 1 - j + 2)
      | none => none
  | _ => none

/-- Scanner for `re.split(r'\n\n+|\n\s*\n', text)`: `acc` holds the current
piece reversed; a positive `skip` count consumes the remaining characters
of an already-recognized separator (equivalent to dropping them at once,
but structurally recursive). -/
def reSplitParaGo (acc : Str) (skip : Nat) : Str → List Str
  | [] => [acc.reverse]
  | c :: cs =>
    match skip with
    | k + 1 => reSplitParaGo acc k cs
    | 0 =>
      match matchParaSep (c :: cs) with
      | some n => acc.reverse :: reSplitParaGo [] (n - 1) cs
      | none => reSplitParaGo (c :: acc) 0 cs

/-- Embeds `TextChunker._split_into_paragraphs`: regex split, strip, and drop
empty pieces. -/
def split_into_paragraphs (text : Str) : List Str :=
  ((reSplitParaGo [] 0 text).map pyStrip).filter (fun p => p ≠ [])

/-- Scanner for `re.split(r'(?<=[.!?])\s+', text)`: split after `.`/`!`/`?`
followed by a (greedy) whitespace run, with the same skip-count scheme as
`reSplitParaGo`. -/
def reSplitSentGo (acc : Str) (skip : Nat) : Str → List Str
  | [] => [acc.reverse]
  | c :: cs =>
    match skip with
    | k + 1 => reSplitSentGo acc k cs
    | 0 =>
      if (c = '.' || c = '!' || c = '?') &&
          (match cs with | d :: _ => isPyWS d | [] => false) then
        (c :: acc).reverse :: reSplitSentGo [] ((cs.takeWhile isPyWS).length) cs
      else
        reSplitSentGo (c :: acc) 0 cs

/-- Embeds `TextChunker._split_into_sentences`: regex split, strip, and drop empty
pieces. -/
def split_into_sentences (text : Str) : List Str :=
  ((reSplitSentGo [] 0 text).map pyStrip).filter (fun s => s ≠ [])

/-- One iteration of the paragraph loop in
`TextChunker._create_chunks_from_paragraphs`. -/
def paraStep (tok : Tokenizer) (chunk_size chunk_overlap : Nat)
    (header_context : Str) (header_tokens : Nat) (acc : ChunkAcc) (para : Str) : ChunkAcc :=
  if (count_tokens tok para : Int) > (chunk_size : Int) - header_tokens then
    { chunks :=
        (if acc.cur ≠ [] then acc.chunks ++ [header_context ++ joinSp acc.cur]
         else acc.chunks) ++
          create_chunks_from_sentences tok chunk_size chunk_overlap header_context
            header_tokens (split_into_sentences para),
      cur := if acc.cur ≠ [] then [] else acc.cur,
      curTokens := if acc.cur ≠ [] then 0 else acc.curTokens }
  else if (acc.curTokens : Int) + count_tokens tok para >
      (chunk_size : Int) - header_tokens then
    if acc.cur ≠ [] then
      { chunks := acc.chunks ++ [header_context ++ joinSp acc.cur],
        cur := overlapSeed tok chunk_overlap acc.cur para,
        curTokens := count_tokens tok (joinSp (overlapSeed tok chunk_overlap acc.cur para)) }
    else
      { chunks := acc.chunks, cur := [para], curTokens := count_tokens tok para }
  else
    { chunks := acc.chunks, cur := acc.cur ++ [para],
      curTokens := acc.curTokens + count_tokens tok para }

/-- The bracketed section-header context followed by two newlines, as
interpolated in the source; empty when the section header is empty,
mirroring the truthiness test there. -/
def headerContext (section_header : Str) : Str :=
  if section_header = [] then []
  else '[' :: (section_header ++ ']' :: '\n' :: '\n' :: [])

/-- Embeds `header_tokens` as computed in `_create_chunks_from_paragraphs`:
zero when there is no section header. -/
def headerTokens (tok : Tokenizer) (section_header : Str) : Nat :=
  if section_header = [] then 0 else count_tokens tok (headerContext section_header)

/-- Embeds `TextChunker._create_chunks_from_paragraphs`. -/
def create_chunks_from_paragraphs (tok : Tokenizer) (chunk_size chunk_overlap : Nat)
    (section_header : Str) (paragraphs : List Str) : List Str :=
  finalFlush (headerContext section_header)
    (paragraphs.foldl
      (paraStep tok chunk_size chunk_overlap (headerContext section_header)
        (headerTokens tok section_header))
      ⟨[], [], 0⟩)

/-- A page record produced by the PDF processor. -/
structure Page where
  text : Str
  page_number : Nat
  section_header : Str
deriving DecidableEq

/-- A chunk record emitted by `TextChunker.chunk_documents`. -/
structure Chunk where
  chunk_id : Nat
  text : Str
  page_number : Nat
  section_header : Str
  token_count : Nat
  char_count : Nat
deriving DecidableEq

/-- The chunk-record appender inside `chunk_documents`: wraps one chunk
text in a record carrying the next global `chunk_id`. -/
def chunkRecordStep (tok : Tokenizer) (page : Page) (st : List Chunk × Nat)
    (chunk_text : Str) : List Chunk × Nat :=
  (st.1 ++ [{ chunk_id := st.2 + 1, text := chunk_text,
              page_number := page.page_number,
              section_header := page.section_header,
              token_count := count_tokens tok chunk_text,
              char_count := chunk_text.length }], st.2 + 1)

/-- The per-page body of the `chunk_documents` loop: chunk the page's
paragraphs and append a record per chunk text, threading the global
chunk-id counter. -/
def chunkPageStep (tok : Tokenizer) (chunk_size chunk_overlap : Nat)
    (st : List Chunk × Nat) (page : Page) : List Chunk × Nat :=
  (create_chunks_from_paragraphs tok chunk_size chunk_overlap page.section_header
    (split_into_paragraphs page.text)).foldl (chunkRecordStep tok page) st

/-- Embeds `TextChunker.chunk_documents`: per page, split into paragraphs, chunk
them, and wrap each chunk text in a record with a globally increasing
`chunk_id`. -/
def chunk_documents (tok : Tokenizer) (chunk_size chunk_overlap : Nat)
    (pages_data : List Page) : List Chunk :=
  (pages_data.foldl (chunkPageStep tok chunk_size chunk_overlap) ([], 0)).1

/-- Whitespace word tokenizer: a concrete, fully additive instance of the
abstract tokenizer (tokens are the maximal space-free pieces, as in
`str.split(" ")`). -/
def splitW : Str → List Str
  | [] => [[]]
  | c :: cs =>
    if c = ' ' then [] :: splitW cs
    else
      match splitW cs with
      | w :: ws => (c :: w) :: ws
      | [] => [[c]]

/-- The word tokenizer packaged as a `Tokenizer`. -/
def wordTok : Tokenizer where
  encode := splitW
  decode := joinSp

/-- Degenerate tokenizer in which every text has zero tokens; it satisfies
all tokenizer hypotheses trivially. -/
def nullTok : Tokenizer where
  encode := fun _ => []
  decode := fun _ => []

/-! ## Rule-based validation (`backend/validation/rules.py`) -/

/-- A violation dictionary.  `category` and `severity` are read back via
`dict.get` in the merger, so they are `Option`-valued (model-derived
violations may lack them); the remaining keys are only ever written. -/
structure Violation where
  category : Option Str
  severity : Option Str
  description : Str
  recommendation : Str
  guideline_reference : Str
deriving DecidableEq

/-- Embeds `ComplianceRules.REQUIRED_ELEMENTS`, in dictionary (insertion) order. -/
def REQUIRED_ELEMENTS : List (Str × List Str) :=
  [("patient_info".toList, ["patient".toList, "name".toList, "age".toList, "dob".toList]),
   ("visit_date".toList, ["date".toList]),
   ("visit_type".toList,
     ["visit type".toList, "skilled nursing".toList, "physical therapy".toList,
      "occupational therapy".toList]),
   ("assessment".toList, ["assessment".toList, "evaluation".toList, "status".toList]),
   ("interventions".toList,
     ["intervention".toList, "treatment".toList, "care provided".toList]),
   ("vital_signs".toList,
     ["vital signs".toList, "bp".toList, "blood pressure".toList, "temperature".toList,
      "pulse".toList, "heart rate".toList]),
   ("plan".toList, ["plan".toList, "plan of care".toList, "continuing".toList]),
   ("nurse_signature".toList,
     ["rn".toList, "nurse".toList, "signature".toList, "signed".toList]),
   ("time_in_out".toList,
     ["time in".toList, "time out".toList, "arrival".toList, "departure".toList])]

/-- Embeds `ComplianceRules.HOMEBOUND_KEYWORDS`. -/
def HOMEBOUND_KEYWORDS : List Str :=
  ["homebound".toList, "unable to leave home".toList, "confined to home".toList,
   "wheelchair bound".toList, "walker".toList, "assistance to leave".toList,
   "taxing effort".toList]

/-- Embeds `ComplianceRules.MEDICAL_NECESSITY_KEYWORDS`. -/
def MEDICAL_NECESSITY_KEYWORDS : List Str :=
  ["skilled".toList, "assessment".toList, "evaluation".toList, "teaching".toList,
   "monitoring".toList, "wound care".toList, "medication management".toList,
   "observation".toList]

/-- Python `s.replace('_', ' ')` for single characters. -/
def replaceUnderscore (s : Str) : Str :=
  s.map (fun c => if c = '_' then ' ' else c)

/-- Python `str.title()`: the first alphabetic character of each cased run
is uppercased, the rest lowercased (ASCII-adequate). -/
def pyTitle (s : Str) : Str :=
  (s.foldl
    (fun (st : Str × Bool) c =>
      if c.isAlpha then
        (st.1 ++ [if st.2 then c.toLower else c.toUpper], true)
      else (st.1 ++ [c], false))
    ([], false)).1

/-- Embeds `ComplianceRules.check_required_elements`. -/
def check_required_elements (note_text : Str) : List Violation :=
  let note_lower := pyLower note_text
  REQUIRED_ELEMENTS.foldl
    (fun violations et =>
      if et.2.any (fun keyword => containsSub keyword note_lower) then violations
      else
        violations ++
          [{ category := some et.1,
             severity := some (if et.1 = "assessment".toList ∨ et.1 = "interventions".toList ∨
                 et.1 = "plan".toList then "major".toList else "minor".toList),
             description := "Missing required element: ".toList ++ pyTitle (replaceUnderscore et.1),
             recommendation := "Include ".toList ++ replaceUnderscore et.1 ++
               " in the visit note".toList,
             guideline_reference := "CMS Medicare Benefit Policy Manual".toList }])
    []

/-- Embeds `ComplianceRules.check_homebound_status`. -/
def check_homebound_status (note_text : Str) : List Violation :=
  let note_lower := pyLower note_text
  if HOMEBOUND_KEYWORDS.any (fun keyword => containsSub keyword note_lower) then []
  else
    [{ category := some "homebound_status".toList,
       severity := some "critical".toList,
       description := "Missing homebound status documentation".toList,
       recommendation := ("Document patient's homebound status, including why patient " ++
         "cannot leave home or requires taxing effort to leave").toList,
       guideline_reference := "Section 30.1.1 - Homebound Requirement".toList }]

/-- Embeds `ComplianceRules.check_medical_necessity`. -/
def check_medical_necessity (note_text : Str) : List Violation :=
  let note_lower := pyLower note_text
  let necessity_count :=
    (MEDICAL_NECESSITY_KEYWORDS.filter (fun keyword => containsSub keyword note_lower)).length
  if necessity_count < 2 then
    [{ category := some "medical_necessity".toList,
       severity := some "critical".toList,
       description := "Insufficient medical necessity documentation".toList,
       recommendation := ("Clearly document skilled nursing services provided and why " ++
         "they are medically necessary").toList,
       guideline_reference := "Section 40 - Covered Services".toList }]
  else []

/-- Regex match of `\d{1,2}:\d{2}\s*(?:AM|PM|am|pm)?` at the head of the
text; returns the match length.  `\d{1,2}` is greedy (two digits preferred),
the trailing meridiem is optional after a greedy whitespace run. -/
def matchTimeAt (s : Str) : Option Nat :=
  let tail2 : Str → Nat := fun rest =>
    let w := (rest.takeWhile isPyWS).length
    let afterWs := rest.drop w
    match afterWs with
    | a :: b :: _ =>
      if (a = 'A' ∧ b = 'M') ∨ (a = 'P' ∧ b = 'M') ∨
          (a = 'a' ∧ b = 'm') ∨ (a = 'p' ∧ b = 'm') then w + 2 else w
    | _ => w
  match s with
  | d1 :: d2 :: ':' :: d3 :: d4 :: rest =>
    if d1.isDigit ∧ d2.isDigit ∧ d3.isDigit ∧ d4.isDigit then
      some (5 + tail2 rest)
    else
      match s with
      | e1 :: ':' :: e2 :: e3 :: rest1 =>
        if e1.isDigit ∧ e2.isDigit ∧ e3.isDigit then some (4 + tail2 rest1) else none
      | _ => none
  | e1 :: ':' :: e2 :: e3 :: rest1 =>
    if e1.isDigit ∧ e2.isDigit ∧ e3.isDigit then some (4 + tail2 rest1) else none
  | _ => none

/-- Number of non-overlapping matches found by
`re.findall(r'(\d{1,2}:\d{2}\s*(?:AM|PM|am|pm)?)', note_text)`, scanning
with the same skip-count scheme as the split scanners. -/
def countTimesGo (skip : Nat) : Str → Nat
  | [] => 0
  | c :: cs =>
    match skip with
    | k + 1 => countTimesGo k cs
    | 0 =>
      match matchTimeAt (c :: cs) with
      | some n => 1 + countTimesGo (n - 1) cs
      | none => countTimesGo 0 cs

/-- Embeds `len(re.findall(r'(\d{1,2}:\d{2}\s*(?:AM|PM|am|pm)?)', note_text))`. -/
def countTimes (note_text : Str) : Nat := countTimesGo 0 note_text

/-- Embeds `ComplianceRules.check_visit_duration`. -/
def check_visit_duration (note_text : Str) : List Violation :=
  if countTimes note_text < 2 then
    [{ category := some "visit_details".toList,
       severity := some "minor".toList,
       description := "Visit start and end times not clearly documented".toList,
       recommendation := "Document specific time in and time out for the visit".toList,
       guideline_reference := "Documentation Requirements".toList }]
  else []

/-- Embeds `ComplianceRules.validate_note`: all four checks, concatenated in order. -/
def validate_note (note_text : Str) : List Violation :=
  check_required_elements note_text ++ check_homebound_status note_text ++
    check_medical_necessity note_text ++ check_visit_duration note_text

/-! ## Result merging (`backend/validation/validator.py`, `_combine_results`) -/

/-- The violation-union loop of `NoteValidator._combine_results`: start from
a copy of the rule violations and append each model-derived violation whose
`category` no current entry already carries. -/
def combineViolations (rule_violations llm_violations : List Violation) : List Violation :=
  llm_violations.foldl
    (fun all_violations llm_v =>
      if all_violations.any (fun v => v.category = llm_v.category) then all_violations
      else all_violations ++ [llm_v])
    rule_violations

/-- Embeds `sum(1 for v in all_violations if v.get('severity') == sev)`. -/
def countSeverity (all_violations : List Violation) (sev : Str) : Nat :=
  (all_violations.filter (fun v => v.severity = some sev)).length

/-- The score computation of `_combine_results`: start at 100, deduct
30/15/5 per critical/major/minor violation, floor at 0.  The Python value
is a float with integral value; it is embedded as an `Int`. -/
def overallScore (all_violations : List Violation) : Int :=
  let critical_count := countSeverity all_violations "critical".toList
  let major_count := countSeverity all_violations "major".toList
  let minor_count := countSeverity all_violations "minor".toList
  max 0 ((100 : Int) - 30 * critical_count - 15 * major_count - 5 * minor_count)

/-- The status determination of `_combine_results`. -/
def statusOf (all_violations : List Violation) : Str :=
  let critical_count := countSeverity all_violations "critical".toList
  let major_count := countSeverity all_violations "major".toList
  let score := overallScore all_violations
  if 0 < critical_count ∨ score < 60 then "non_compliant".toList
  else if 2 < major_count ∨ score < 80 then "needs_review".toList
  else "compliant".toList

/-- Heap of Python list objects holding strengths lists, for tracking
aliasing between the model result and the combined result. -/
abbrev StrengthsStore := List (List Str)

/-- The model (`llm_result`) argument of `_combine_results`: its
`strengths` entry is a reference into the store (`none` when the key is
absent, in which case `dict.get` supplies a fresh empty list). -/
structure LLMResult where
  violations : List Violation
  strengthsRef : Option Nat
deriving DecidableEq

/-- The parts of the combined result dictionary relevant to merging:
`strengths` is the list object (store reference) placed in the result. -/
structure CombinedResult where
  status : Str
  overall_score : Int
  violations : List Violation
  strengthsRef : Nat
deriving DecidableEq

/-- First fixed affirmation appended when no violations were found. -/
def affirmation1 : Str := "All required elements are present".toList

/-- Second fixed affirmation appended when no violations were found. -/
def affirmation2 : Str := "Documentation meets CMS guidelines".toList

/-- Embeds `NoteValidator._combine_results`, restricted to violation merging,
scoring, status, and the strengths list, with the strengths list objects
tracked through an explicit store: `strengths = llm_result.get('strengths', [])`
yields the model result's own list object when the key is present (a fresh
empty one otherwise), and the two affirmations are appended to that object
in place when the merged violation list is empty. -/
def combine_results (store : StrengthsStore) (rule_violations : List Violation)
    (llm_result : LLMResult) : StrengthsStore × CombinedResult :=
  let all_violations := combineViolations rule_violations llm_result.violations
  let (store1, strengths) :=
    match llm_result.strengthsRef with
    | some r => (store, r)
    | none => (store ++ [[]], store.length)
  let store2 :=
    if all_violations = [] then
      store1.set strengths ((store1.getD strengths []) ++ [affirmation1, affirmation2])
    else store1
  (store2,
   { status := statusOf all_violations,
     overall_score := overallScore all_violations,
     violations := all_violations,
     strengthsRef := strengths })

/-! ## Search (`backend/retrieval/search.py`) -/

/-- A metadata dictionary attached to an index match; every key is read
with `dict.get`, so all fields are optional. -/
structure Meta where
  page_number : Option Nat
  section_header : Option Str
  chunk_id : Option Nat
deriving DecidableEq

/-- A formatted search result. Distances and similarity scores are floats
in the source, embedded as rationals. -/
structure SearchResult where
  text : Str
  page_number : Option Nat
  section_header : Str
  similarity_score : ℚ
  distance : ℚ
  chunk_id : Option Nat
deriving DecidableEq

/-- Embeds `SemanticSearch._format_results`, over the first result group
(`documents[0]`, `metadatas[0]`, `distances[0]`): out-of-range metadata
defaults to an empty dictionary, out-of-range distance to `1.0`, and
`similarity_score = 1 - min(distance, 1.0)`. -/
def format_results (documents : List Str) (metadatas : List Meta)
    (distances : List ℚ) : List SearchResult :=
  if documents = [] then []
  else
    documents.enum.map (fun (i, doc) =>
      let metadata := metadatas.getD i ⟨none, none, none⟩
      let distance := distances.getD i 1
      let similarity_score := 1 - min distance 1
      { text := doc,
        page_number := metadata.page_number,
        section_header := metadata.section_header.getD [],
        similarity_score := similarity_score,
        distance := distance,
        chunk_id := metadata.chunk_id })

/-- The raw grouped arrays returned by the vector store for one query. -/
structure RawResults where
  documents : List Str
  metadatas : List Meta
  distances : List ℚ

/-- Embeds `SemanticSearch.search`, with the external embedder and vector store
abstracted: a `none` query embedding (provider failure) short-circuits to
an empty result list; otherwise the store is queried and the raw results
formatted. -/
def search (query_embedding : Option (List ℚ)) (store_query : List ℚ → RawResults) :
    List SearchResult :=
  match query_embedding with
  | none => []
  | some e =>
    let results := store_query e
    format_results results.documents results.metadatas results.distances

/-- The per-result keyword boost of `SemanticSearch.hybrid_search`:
`0.1` per case-insensitive keyword substring match, clamped to `1.0`. -/
def boostResult (keywords : List Str) (result : SearchResult) : SearchResult :=
  let text_lower := pyLower result.text
  let keyword_boost : ℚ :=
    ((keywords.filter (fun keyword => containsSub (pyLower keyword) text_lower)).length : ℚ)
      * (1 / 10)
  { result with similarity_score := min (result.similarity_score + keyword_boost) 1 }

/-- Embeds `SemanticSearch.hybrid_search` after the inner semantic search call:
given the semantic results, a falsy (empty) keyword list short-circuits to
the first `n_results` entries; otherwise every result is boosted, the list
is stable-sorted by descending adjusted score (`list.sort` with
`reverse=True`), and truncated. -/
def hybrid_search (semantic_results : List SearchResult) (keywords : List Str)
    (n_results : Nat) : List SearchResult :=
  if keywords = [] then semantic_results.take n_results
  else
    let boosted := semantic_results.map (boostResult keywords)
    (boosted.mergeSort (fun a b => b.similarity_score ≤ a.similarity_score)).take n_results

/-- A rule violation fixture with a given category and severity. -/
def mkViol (cat sev : Str) : Violation :=
  { category := some cat, severity := some sev, description := [],
    recommendation := [], guideline_reference := [] }

/-- Search-result fixture with similarity score 0. -/
def rLow : SearchResult :=
  { text := "alpha".toList, page_number := none, section_header := [],
    similarity_score := 0, distance := 1, chunk_id := none }

/-- Search-result fixture with similarity score 1. -/
def rHigh : SearchResult :=
  { text := "beta".toList, page_number := none, section_header := [],
    similarity_score := 1, distance := 0, chunk_id := none }


/-! ### Token-bound predicates for the chunker -/

/-- A chunk text consisting of exactly one oversized atomic piece `s`
(an `atom`, with token count above the usable budget
`chunk_size - header_tokens`), prefixed by the header context and
optionally by injected overlap text of at most `chunk_overlap` tokens:
the escape-valve shapes produced by the sentence loop.  `atom` is
instantiated with membership in the sentence split of an input
paragraph, which is what makes the exception non-trivial. -/
def OversizedPiece (tok : Tokenizer) (chunk_size chunk_overlap header_tokens : Nat)
    (header_context : Str) (atom : Str → Prop) (t : Str) : Prop :=
  ∃ s : Str, atom s ∧
    (chunk_size : Int) - header_tokens < count_tokens tok s ∧
    (t = header_context ++ s ∨
      ∃ ov : Str, count_tokens tok ov ≤ chunk_overlap ∧
        t = header_context ++ ov ++ ' ' :: s)

/-- The per-chunk conclusion of the amended token bound: within
`chunk_size + chunk_overlap` tokens, or an oversized-atom chunk. -/
def GoodChunk (tok : Tokenizer) (chunk_size chunk_overlap header_tokens : Nat)
    (header_context : Str) (atom : Str → Prop) (t : Str) : Prop :=
  count_tokens tok t ≤ chunk_size + chunk_overlap ∨
    OversizedPiece tok chunk_size chunk_overlap header_tokens header_context atom t

/-- Invariant tying the working buffer to the running `current_tokens`
counter in the chunk-building loops.  The last buffer element is either
within the usable budget or an oversized `atom`. -/
def BufInv (tok : Tokenizer) (chunk_size chunk_overlap header_tokens : Nat)
    (atom : Str → Prop) (cur : List Str) (t : Nat) : Prop :=
  (cur = [] → t = 0) ∧
  (cur ≠ [] →
    count_tokens tok (joinSp cur) ≤ t ∧
    ((t : Int) ≤ (chunk_size : Int) - header_tokens ∨
      (∃ s, cur = [s] ∧ t = count_tokens tok s ∧
        ((count_tokens tok s : Int) ≤ (chunk_size : Int) - header_tokens ∨ atom s)) ∨
      (∃ o s, cur = [o, s] ∧ count_tokens tok o ≤ chunk_overlap ∧
        ((count_tokens tok s : Int) ≤ (chunk_size : Int) - header_tokens ∨ atom s))))

/-- Loop invariant of the chunk-building loops: every emitted chunk
satisfies the amended bound and the buffer state is consistent. -/
def AccInv (tok : Tokenizer) (chunk_size chunk_overlap header_tokens : Nat)
    (header_context : Str) (atom : Str → Prop) (acc : ChunkAcc) : Prop :=
  (∀ t ∈ acc.chunks,
    GoodChunk tok chunk_size chunk_overlap header_tokens header_context atom t) ∧
  BufInv tok chunk_size chunk_overlap header_tokens atom acc.cur acc.curTokens

/-- Page fixture: three three-word paragraphs, no section header. -/
def pageEx : Page :=
  { text := "a b c\n\nd e f\n\ng h i".toList, page_number := 1, section_header := [] }

/-- The second chunk the chunker emits for `pageEx` with the word
tokenizer, `chunk_size` 3 and `chunk_overlap` 2: overlap re-injection
gives it 5 tokens. -/
def chunkEx : Chunk :=
  { chunk_id := 2, text := "b c d e f".toList, page_number := 1,
    section_header := [], token_count := 5, char_count := 9 }

/-! ### Word-tokenizer lemmas

The whitespace word tokenizer satisfies the additivity and round-trip
properties the chunker theorems assume of the external tiktoken encoding. -/

lemma splitW_ne_nil : ∀ s : Str, splitW s ≠ [] := by
  intro s
  cases s with
  | nil => simp [splitW]
  | cons c cs =>
    unfold splitW
    by_cases h : c = ' '
    · simp [h]
    · rw [if_neg h]
      cases hs : splitW cs with
      | nil => simp
      | cons w ws => simp

lemma splitW_cons_space (cs : Str) : splitW (' ' :: cs) = [] :: splitW cs := by
  simp [splitW]

lemma splitW_cons_ne (cs : Str) {c : Char} (h : ¬ c = ' ') (w : Str) (ws : List Str)
    (hs : splitW cs = w :: ws) : splitW (c :: cs) = (c :: w) :: ws := by
  rw [splitW, if_neg h, hs]

lemma splitW_space_append (a b : Str) : splitW (a ++ ' ' :: b) = splitW a ++ splitW b := by
  induction a with
  | nil =>
    rw [List.nil_append, splitW_cons_space]
    rfl
  | cons c a ih =>
    by_cases h : c = ' '
    · subst h
      rw [List.cons_append, splitW_cons_space, ih, splitW_cons_space]
      rfl
    · cases ha : splitW a with
      | nil => exact absurd ha (splitW_ne_nil a)
      | cons w ws =>
        have h1 : splitW (a ++ ' ' :: b) = w :: (ws ++ splitW b) := by
          rw [ih, ha]
          rfl
        rw [List.cons_append, splitW_cons_ne _ h _ _ h1, splitW_cons_ne _ h _ _ ha]
        rfl

lemma length_splitW_cons_ne {c : Char} (s : Str) (h : ¬ c = ' ') :
    (splitW (c :: s)).length = (splitW s).length := by
  cases hs : splitW s with
  | nil => exact absurd hs (splitW_ne_nil s)
  | cons w ws => simp [splitW_cons_ne s h w ws hs, hs]

lemma length_splitW_append (a b : Str) :
    (splitW (a ++ b)).length + 1 = (splitW a).length + (splitW b).length := by
  induction a with
  | nil =>
    simp [splitW]
    omega
  | cons c a ih =>
    by_cases h : c = ' '
    · subst h
      rw [List.cons_append, splitW_cons_space, splitW_cons_space]
      simp only [List.length_cons]
      omega
    · rw [List.cons_append, length_splitW_cons_ne _ h, length_splitW_cons_ne _ h]
      exact ih

lemma splitW_no_space : ∀ (s : Str), ∀ w ∈ splitW s, ' ' ∉ w := by
  intro s
  induction s with
  | nil =>
    intro w hw
    simp [splitW] at hw
    simp [hw]
  | cons c cs ih =>
    intro w hw
    by_cases h : c = ' '
    · subst h
      rw [splitW_cons_space] at hw
      rcases List.mem_cons.mp hw with rfl | hw2
      · simp
      · exact ih w hw2
    · cases hs : splitW cs with
      | nil => exact absurd hs (splitW_ne_nil cs)
      | cons w0 ws =>
        rw [splitW_cons_ne cs h w0 ws hs] at hw
        rcases List.mem_cons.mp hw with rfl | hw2
        · intro hmem
          rcases List.mem_cons.mp hmem with hc | hmem2
          · exact h hc.symm
          · exact ih w0 (by rw [hs]; exact List.mem_cons_self _ _) hmem2
        · exact ih w (by rw [hs]; exact List.mem_cons_of_mem _ hw2)

lemma splitW_of_no_space : ∀ (s : Str), ' ' ∉ s → splitW s = [s] := by
  intro s
  induction s with
  | nil => intro _; rfl
  | cons c cs ih =>
    intro h
    have hc : ¬ c = ' ' := fun hEq => h (hEq ▸ List.mem_cons_self c cs)
    have hcs : ' ' ∉ cs := fun hmem => h (List.mem_cons_of_mem c hmem)
    rw [splitW_cons_ne cs hc cs [] (ih hcs)]

lemma splitW_joinSp : ∀ (ts : List Str), ts ≠ [] → (∀ w ∈ ts, ' ' ∉ w) →
    splitW (joinSp ts) = ts := by
  intro ts
  induction ts with
  | nil => intro h; exact absurd rfl h
  | cons x ts ih =>
    intro _ hws
    cases ts with
    | nil => exact splitW_of_no_space x (hws x (List.mem_cons_self x []))
    | cons y ts2 =>
      have hx : joinSp (x :: y :: ts2) = x ++ ' ' :: joinSp (y :: ts2) := rfl
      rw [hx, splitW_space_append,
        splitW_of_no_space x (hws x (List.mem_cons_self _ _)),
        ih (by simp) (fun w hw => hws w (List.mem_cons_of_mem x hw))]
      rfl

lemma wordTok_join_le (a b : Str) :
    count_tokens wordTok (a ++ ' ' :: b) ≤ count_tokens wordTok a + count_tokens wordTok b := by
  simp [count_tokens, wordTok, splitW_space_append]

lemma wordTok_append_le (a b : Str) :
    count_tokens wordTok (a ++ b) ≤ count_tokens wordTok a + count_tokens wordTok b := by
  have := length_splitW_append a b
  simp only [count_tokens, wordTok]
  omega

lemma wordTok_decode_suffix (s : Str) (ts : List Str) (hne : ts ≠ [])
    (hsuf : ts <:+ wordTok.encode s) :
    count_tokens wordTok (wordTok.decode ts) ≤ ts.length := by
  have hsub : ∀ w ∈ ts, ' ' ∉ w := fun w hw => splitW_no_space s w (hsuf.subset hw)
  simp [count_tokens, wordTok, splitW_joinSp ts hne hsub]

/-- C6 counterexample: with a configured overlap width of `0` and a
non-empty buffer, Python's `tokens[-0:]` keeps the whole token list, so
`_get_overlap_text` returns the entire joined buffer (one token here,
exceeding the width `0`) even though the tokenizer round-trips exactly. -/
theorem get_overlap_text_zero_cex :
    wordTok.encode (wordTok.decode (wordTok.encode (joinSp ["a".toList]))) =
      wordTok.encode (joinSp ["a".toList]) ∧
    get_overlap_text wordTok 0 ["a".toList] = "a".toList ∧
    ¬ count_tokens wordTok (get_overlap_text wordTok 0 ["a".toList]) ≤ 0 := by
  refine ⟨rfl, rfl, by decide⟩

/-- Shared characterization of `_get_overlap_text` for positive overlap
widths: the overlap text is the whole joined buffer when it fits, else the
decoded last `chunk_overlap` tokens, and (assuming re-encoding the kept
suffix does not grow it) its token count is at most `chunk_overlap`. -/
lemma get_overlap_text_spec (tok : Tokenizer) (chunk_overlap : Nat) (chunks : List Str)
    (hne : chunks ≠ []) (hov : 1 ≤ chunk_overlap)
    (hrt : ∀ ts, ts ≠ [] → ts <:+ tok.encode (joinSp chunks) →
      count_tokens tok (tok.decode ts) ≤ ts.length) :
    count_tokens tok (get_overlap_text tok chunk_overlap chunks) ≤ chunk_overlap ∧
    ((tok.encode (joinSp chunks)).length ≤ chunk_overlap →
      get_overlap_text tok chunk_overlap chunks = joinSp chunks) ∧
    (chunk_overlap < (tok.encode (joinSp chunks)).length →
      get_overlap_text tok chunk_overlap chunks =
        tok.decode ((tok.encode (joinSp chunks)).drop
          ((tok.encode (joinSp chunks)).length - chunk_overlap))) := by
  by_cases hlen : (tok.encode (joinSp chunks)).length ≤ chunk_overlap
  · have heq : get_overlap_text tok chunk_overlap chunks = joinSp chunks := by
      simp [get_overlap_text, hne, hlen]
    rw [heq]
    exact ⟨by simpa [count_tokens] using hlen, fun _ => rfl,
      fun hlt => absurd hlen (Nat.not_le_of_lt hlt)⟩
  · have hzero : ¬ chunk_overlap = 0 := by omega
    have heq : get_overlap_text tok chunk_overlap chunks =
        tok.decode ((tok.encode (joinSp chunks)).drop
          ((tok.encode (joinSp chunks)).length - chunk_overlap)) := by
      simp [get_overlap_text, hne, hlen, hzero]
    rw [heq]
    have hlt : chunk_overlap < (tok.encode (joinSp chunks)).length := Nat.lt_of_not_le hlen
    have hkeep : ((tok.encode (joinSp chunks)).drop
        ((tok.encode (joinSp chunks)).length - chunk_overlap)).length = chunk_overlap := by
      rw [List.length_drop]
      omega
    have hne2 : (tok.encode (joinSp chunks)).drop
        ((tok.encode (joinSp chunks)).length - chunk_overlap) ≠ [] := by
      intro hnil
      rw [hnil] at hkeep
      simp at hkeep
      omega
    have hb := hrt _ hne2 (List.drop_suffix _ _)
    exact ⟨by omega, fun hle => absurd hle hlen, fun _ => rfl⟩

/-- C6 (amended): for every positive configured overlap width and
non-empty buffer, the overlap text keeps the whole space-joined buffer
when it has at most `overlap` tokens and otherwise exactly the last
`overlap` tokens decoded back to text, so (assuming re-encoding the kept
suffix does not increase the token count) its token length is at most the
overlap width.  For width `0` the whole buffer is kept instead (Python's
`tokens[-0:]`; see the counterexample). -/
theorem get_overlap_text_bound (tok : Tokenizer) (chunk_overlap : Nat) (chunks : List Str)
    (hne : chunks ≠ []) (hov : 1 ≤ chunk_overlap)
    (hrt : ∀ ts, ts ≠ [] → ts <:+ tok.encode (joinSp chunks) →
      count_tokens tok (tok.decode ts) ≤ ts.length) :
    count_tokens tok (get_overlap_text tok chunk_overlap chunks) ≤ chunk_overlap ∧
    ((tok.encode (joinSp chunks)).length ≤ chunk_overlap →
      get_overlap_text tok chunk_overlap chunks = joinSp chunks) ∧
    (chunk_overlap < (tok.encode (joinSp chunks)).length →
      get_overlap_text tok chunk_overlap chunks =
        tok.decode ((tok.encode (joinSp chunks)).drop
          ((tok.encode (joinSp chunks)).length - chunk_overlap))) :=
  get_overlap_text_spec tok chunk_overlap chunks hne hov hrt

/-- Witness for C6 (amended): the word tokenizer on a two-element buffer
whose joined text has three tokens, with overlap width 2. -/
theorem get_overlap_text_bound_witness :
    count_tokens wordTok (get_overlap_text wordTok 2 ["a b".toList, "c".toList]) ≤ 2 ∧
    ((wordTok.encode (joinSp ["a b".toList, "c".toList])).length ≤ 2 →
      get_overlap_text wordTok 2 ["a b".toList, "c".toList] =
        joinSp ["a b".toList, "c".toList]) ∧
    (2 < (wordTok.encode (joinSp ["a b".toList, "c".toList])).length →
      get_overlap_text wordTok 2 ["a b".toList, "c".toList] =
        wordTok.decode ((wordTok.encode (joinSp ["a b".toList, "c".toList])).drop
          ((wordTok.encode (joinSp ["a b".toList, "c".toList])).length - 2))) :=
  get_overlap_text_bound wordTok 2 ["a b".toList, "c".toList] (by decide) (by decide)
    (fun ts hne hsuf => wordTok_decode_suffix (joinSp ["a b".toList, "c".toList]) ts hne hsuf)


/-! ## Helper lemmas for the merger -/

/-- Folding the union loop only ever appends entries taken from the
model-derived list. -/
lemma combineViolations_eq_append (llm_violations : List Violation) :
    ∀ acc : List Violation,
      ∃ app, combineViolations acc llm_violations = acc ++ app ∧ ∀ x ∈ app, x ∈ llm_violations := by
  unfold combineViolations
  induction llm_violations with
  | nil => exact fun acc => ⟨[], by simp⟩
  | cons v lv ih =>
    intro acc
    simp only [List.foldl_cons]
    by_cases h : (acc.any (fun w => w.category = v.category)) = true
    · rw [if_pos h]
      obtain ⟨app, happ, hmem⟩ := ih acc
      exact ⟨app, happ, fun x hx => List.mem_cons_of_mem _ (hmem x hx)⟩
    · rw [if_neg h]
      obtain ⟨app, happ, hmem⟩ := ih (acc ++ [v])
      refine ⟨v :: app, by simpa [List.append_assoc] using happ, ?_⟩
      intro x hx
      rcases List.mem_cons.mp hx with rfl | hx'
      · exact List.mem_cons_self _ _
      · exact List.mem_cons_of_mem _ (hmem x hx')

/-- The union loop preserves pairwise-distinct categories. -/
lemma combineViolations_pairwise (llm_violations : List Violation) :
    ∀ acc : List Violation,
      (acc.map (fun v => v.category)).Pairwise (· ≠ ·) →
      ((combineViolations acc llm_violations).map (fun v => v.category)).Pairwise (· ≠ ·) := by
  unfold combineViolations
  induction llm_violations with
  | nil => exact fun acc h => h
  | cons v lv ih =>
    intro acc hacc
    simp only [List.foldl_cons]
    by_cases h : (acc.any (fun w => w.category = v.category)) = true
    · rw [if_pos h]; exact ih acc hacc
    · rw [if_neg h]
      refine ih (acc ++ [v]) ?_
      simp only [List.map_append, List.pairwise_append, List.map_cons, List.map_nil]
      refine ⟨hacc, List.pairwise_singleton _ _, ?_⟩
      intro a ha b hb
      simp only [List.mem_singleton] at hb
      subst hb
      simp only [List.any_eq_true, not_exists, not_and, decide_eq_true_eq] at h
      obtain ⟨w, hw, rfl⟩ := List.mem_map.mp ha
      exact fun hEq => h w hw hEq

/-! ## Claim theorems: scoring and status -/

/-- C2: for every merged violation list the overall compliance score is
`max 0 (100 - 30*critical - 15*major - 5*minor)`; the multiset with one
critical, two major and one minor violation scores 35; the empty list
scores 100 with status `compliant`. -/
theorem overall_score_formula :
    (∀ all_violations : List Violation,
      overallScore all_violations =
        max 0 ((100 : Int)
          - 30 * countSeverity all_violations "critical".toList
          - 15 * countSeverity all_violations "major".toList
          - 5 * countSeverity all_violations "minor".toList)) ∧
    overallScore
      [mkViol "a".toList "critical".toList, mkViol "b".toList "major".toList,
       mkViol "c".toList "major".toList, mkViol "d".toList "minor".toList] = 35 ∧
    overallScore [] = 100 ∧ statusOf [] = "compliant".toList := by
  refine ⟨fun vs => rfl, by decide, by decide, by decide⟩

/-- C3: the returned status is `non_compliant` iff there is a critical
violation or the score is below 60; otherwise `needs_review` iff there are
more than two major violations or the score is below 80; otherwise
`compliant`. -/
theorem status_thresholds (all_violations : List Violation) :
    (statusOf all_violations = "non_compliant".toList ↔
      0 < countSeverity all_violations "critical".toList ∨
        overallScore all_violations < 60) ∧
    (statusOf all_violations = "needs_review".toList ↔
      ¬ (0 < countSeverity all_violations "critical".toList ∨
          overallScore all_violations < 60) ∧
        (2 < countSeverity all_violations "major".toList ∨
          overallScore all_violations < 80)) ∧
    (statusOf all_violations = "compliant".toList ↔
      ¬ (0 < countSeverity all_violations "critical".toList ∨
          overallScore all_violations < 60) ∧
        ¬ (2 < countSeverity all_violations "major".toList ∨
          overallScore all_violations < 80)) := by
  simp only [statusOf]
  split_ifs with h1 h2
  · refine ⟨by simpa using h1, ?_, ?_⟩
    · constructor
      · intro h; exact absurd h (by decide)
      · rintro ⟨hn, _⟩; exact absurd h1 hn
    · constructor
      · intro h; exact absurd h (by decide)
      · rintro ⟨hn, _⟩; exact absurd h1 hn
  · refine ⟨?_, ⟨fun _ => ⟨h1, h2⟩, fun _ => rfl⟩, ?_⟩
    · constructor
      · intro h; exact absurd h (by decide)
      · intro h; exact absurd h h1
    · constructor
      · intro h; exact absurd h (by decide)
      · rintro ⟨_, hn⟩; exact absurd h2 hn
  · refine ⟨?_, ?_, ⟨fun _ => ⟨h1, h2⟩, fun _ => rfl⟩⟩
    · constructor
      · intro h; exact absurd h (by decide)
      · intro h; exact absurd h h1
    · constructor
      · intro h; exact absurd h (by decide)
      · rintro ⟨_, h⟩; exact absurd h h2

/-- C10: the empty note yields exactly 12 violations, in fixed order —
the nine required-element categories in dictionary order, then
`homebound_status`, `medical_necessity` and `visit_details` — with
severity breakdown 2 critical, 3 major and 7 minor. -/
theorem validate_note_empty :
    (validate_note []).length = 12 ∧
    (validate_note []).map (fun v => v.category) =
      [some "patient_info".toList, some "visit_date".toList, some "visit_type".toList,
       some "assessment".toList, some "interventions".toList, some "vital_signs".toList,
       some "plan".toList, some "nurse_signature".toList, some "time_in_out".toList,
       some "homebound_status".toList, some "medical_necessity".toList,
       some "visit_details".toList] ∧
    countSeverity (validate_note []) "critical".toList = 2 ∧
    countSeverity (validate_note []) "major".toList = 3 ∧
    countSeverity (validate_note []) "minor".toList = 7 := by
  refine ⟨by decide, by decide, by decide, by decide, by decide⟩

/-- C4: when the rule violations carry pairwise distinct categories, the
merged list extends the unchanged rule violations, carries pairwise
distinct categories, and everything appended past the rule violations is
model-derived (so a model violation duplicating any earlier category is
dropped and rule entries win all ties). -/
theorem combine_violations_dedup (rule_violations llm_violations : List Violation)
    (hrv : (rule_violations.map (fun v => v.category)).Pairwise (· ≠ ·)) :
    (combineViolations rule_violations llm_violations).take rule_violations.length =
      rule_violations ∧
    ((combineViolations rule_violations llm_violations).map
      (fun v => v.category)).Pairwise (· ≠ ·) ∧
    (∀ v ∈ (combineViolations rule_violations llm_violations).drop rule_violations.length,
      v ∈ llm_violations) := by
  obtain ⟨app, happ, hmem⟩ := combineViolations_eq_append llm_violations rule_violations
  refine ⟨?_, combineViolations_pairwise llm_violations rule_violations hrv, ?_⟩
  · rw [happ, List.take_left]
  · intro v hv
    rw [happ, List.drop_left] at hv
    exact hmem v hv

/-- Witness for C4 at a concrete input: two distinct-category rule
violations, one duplicate and one fresh model violation. -/
theorem combine_violations_dedup_witness :
    (combineViolations
        [mkViol "x".toList "major".toList, mkViol "y".toList "minor".toList]
        [mkViol "x".toList "critical".toList, mkViol "z".toList "minor".toList]).take 2 =
      [mkViol "x".toList "major".toList, mkViol "y".toList "minor".toList] ∧
    ((combineViolations
        [mkViol "x".toList "major".toList, mkViol "y".toList "minor".toList]
        [mkViol "x".toList "critical".toList, mkViol "z".toList "minor".toList]).map
      (fun v => v.category)).Pairwise (· ≠ ·) ∧
    (∀ v ∈ (combineViolations
        [mkViol "x".toList "major".toList, mkViol "y".toList "minor".toList]
        [mkViol "x".toList "critical".toList, mkViol "z".toList "minor".toList]).drop 2,
      v ∈ [mkViol "x".toList "critical".toList, mkViol "z".toList "minor".toList]) :=
  combine_violations_dedup
    [mkViol "x".toList "major".toList, mkViol "y".toList "minor".toList]
    [mkViol "x".toList "critical".toList, mkViol "z".toList "minor".toList]
    (by decide)

/-- C5 counterexample: with no violations and a model result whose
`strengths` key is present, `_combine_results` places the model result's
own strengths list object in the returned result and appends the two
affirmations to it in place — so the returned strengths list is the same
object and the model result argument is mutated, contrary to the claim. -/
theorem combine_results_fresh_cex :
    ¬ (((combine_results [["good".toList]] []
          { violations := [], strengthsRef := some 0 }).2.strengthsRef ≠ 0) ∧
       (combine_results [["good".toList]] []
          { violations := [], strengthsRef := some 0 }).1 = [["good".toList]]) := by
  decide

/-- C5 (amended): when the model result carries a strengths list, the
combined result aliases that very list object; if the merged violation
list is empty the two fixed affirmations are appended to it in place
(mutating the model result), and otherwise the store is untouched. -/
theorem combine_results_aliasing (store : StrengthsStore)
    (rule_violations : List Violation) (llm_result : LLMResult) (r : Nat)
    (h : llm_result.strengthsRef = some r) :
    ((combine_results store rule_violations llm_result).2.strengthsRef = r) ∧
    (combineViolations rule_violations llm_result.violations = [] →
      (combine_results store rule_violations llm_result).1 =
        store.set r ((store.getD r []) ++ [affirmation1, affirmation2])) ∧
    (combineViolations rule_violations llm_result.violations ≠ [] →
      (combine_results store rule_violations llm_result).1 = store) := by
  by_cases hv : combineViolations rule_violations llm_result.violations = []
  · simp [combine_results, h, hv]
  · simp [combine_results, h, hv]

/-- Witness for C5 (amended) at a concrete store and model result. -/
theorem combine_results_aliasing_witness :
    ((combine_results [["good".toList]] []
        { violations := [], strengthsRef := some 0 }).2.strengthsRef = 0) ∧
    (combineViolations [] ([] : List Violation) = [] →
      (combine_results [["good".toList]] []
          { violations := [], strengthsRef := some 0 }).1 =
        [["good".toList]].set 0 (([["good".toList]].getD 0 []) ++
          [affirmation1, affirmation2])) ∧
    (combineViolations [] ([] : List Violation) ≠ [] →
      (combine_results [["good".toList]] []
          { violations := [], strengthsRef := some 0 }).1 = [["good".toList]]) :=
  combine_results_aliasing [["good".toList]] []
    { violations := [], strengthsRef := some 0 } 0 rfl

/-- C9 counterexample: an embedding-provider failure (`none` query
embedding) makes `search` return a plain empty result list — the same
value a successful query returns when the store has no matches — so no
caller-visible service-unavailable condition distinguishes the two. -/
theorem search_failure_cex :
    search none (fun _ => ⟨[], [], []⟩) = search (some [1]) (fun _ => ⟨[], [], []⟩) ∧
    search none (fun _ => ⟨[], [], []⟩) = ([] : List SearchResult) := by
  constructor
  · simp [search, format_results]
  · rfl

/-- C9 (amended): on embedding failure `search` short-circuits to the
normal empty result list, and a successful query over an empty result
group also returns the empty list, so the two outcomes coincide. -/
theorem search_embedding_failure :
    (∀ store_query : List ℚ → RawResults, search none store_query = []) ∧
    (∀ (e : List ℚ) (store_query : List ℚ → RawResults),
      (store_query e).documents = [] → search (some e) store_query = []) := by
  refine ⟨fun _ => rfl, fun e store_query h => ?_⟩
  simp [search, format_results, h]

/-- Witness for C9 (amended) at a concrete empty store. -/
theorem search_embedding_failure_witness :
    search none (fun _ => (⟨[], [], []⟩ : RawResults)) = [] ∧
    search (some [1]) (fun _ => (⟨[], [], []⟩ : RawResults)) = [] :=
  ⟨search_embedding_failure.1 _, search_embedding_failure.2 [1] _ rfl⟩

/-- C8: every formatted result satisfies
`similarity_score = 1 - min(distance, 1.0)`, which lies in `[0, 1]`
whenever the supplied distances are non-negative, and an index with no
distance entry gets the default distance `1.0`, hence similarity `0`. -/
theorem format_results_similarity (documents : List Str) (metadatas : List Meta)
    (distances : List ℚ) (hd : ∀ d ∈ distances, 0 ≤ d) :
    ∀ (i : Nat) (r : SearchResult),
      (format_results documents metadatas distances)[i]? = some r →
      r.distance = distances.getD i 1 ∧
      r.similarity_score = 1 - min (distances.getD i 1) 1 ∧
      0 ≤ r.similarity_score ∧ r.similarity_score ≤ 1 ∧
      (distances.length ≤ i → r.similarity_score = 0) := by
  intro i r hr
  by_cases hdoc : documents = []
  · subst hdoc
    unfold format_results at hr
    rw [if_pos rfl] at hr
    simp at hr
  · have hdist : 0 ≤ distances.getD i 1 := by
      by_cases hlen : i < distances.length
      · rw [List.getD_eq_getElem distances 1 hlen]
        exact hd _ (List.getElem_mem hlen)
      · rw [List.getD_eq_default distances 1 (Nat.le_of_not_lt hlen)]
        norm_num
    unfold format_results at hr
    rw [if_neg hdoc, List.getElem?_map, List.getElem?_enum] at hr
    cases hdd : documents[i]? with
    | none => rw [hdd] at hr; simp at hr
    | some doc =>
      rw [hdd] at hr
      have heq := Option.some.inj hr
      subst heq
      refine ⟨rfl, rfl, ?_, ?_, ?_⟩
      · have h1 : min (distances.getD i 1) 1 ≤ 1 := min_le_right _ _
        simp only
        linarith
      · have h0 : (0 : ℚ) ≤ min (distances.getD i 1) 1 := le_min hdist (by norm_num)
        simp only
        linarith
      · intro hlen
        simp only
        rw [List.getD_eq_default distances 1 hlen]
        norm_num

/-- Witness for C8 at a concrete input: two documents, one distance entry
(`0`), the second entry falling back to the default distance `1.0`. -/
theorem format_results_similarity_witness :
    ((⟨"d2".toList, none, [], 1 - min (([(0 : ℚ)]).getD 1 1) 1,
        ([(0 : ℚ)]).getD 1 1, none⟩ : SearchResult).distance = ([(0 : ℚ)]).getD 1 1) ∧
    ((⟨"d2".toList, none, [], 1 - min (([(0 : ℚ)]).getD 1 1) 1,
        ([(0 : ℚ)]).getD 1 1, none⟩ : SearchResult).similarity_score =
      1 - min (([(0 : ℚ)]).getD 1 1) 1) ∧
    0 ≤ ((⟨"d2".toList, none, [], 1 - min (([(0 : ℚ)]).getD 1 1) 1,
        ([(0 : ℚ)]).getD 1 1, none⟩ : SearchResult)).similarity_score ∧
    ((⟨"d2".toList, none, [], 1 - min (([(0 : ℚ)]).getD 1 1) 1,
        ([(0 : ℚ)]).getD 1 1, none⟩ : SearchResult)).similarity_score ≤ 1 ∧
    (([(0 : ℚ)]).length ≤ 1 →
      ((⟨"d2".toList, none, [], 1 - min (([(0 : ℚ)]).getD 1 1) 1,
          ([(0 : ℚ)]).getD 1 1, none⟩ : SearchResult)).similarity_score = 0) :=
  format_results_similarity ["d1".toList, "d2".toList] [] [0]
    (by intro d hd; rw [List.mem_singleton.mp hd]) 1
    (⟨"d2".toList, none, [], 1 - min (([(0 : ℚ)]).getD 1 1) 1,
        ([(0 : ℚ)]).getD 1 1, none⟩ : SearchResult)
    rfl

/-- C7 counterexample: with an empty (falsy) keyword list, `hybrid_search`
returns the first `n_results` semantic results in their original order —
no boosting, clamping, or descending stable sort happens, so an ascending
input list comes back unsorted, contrary to the claim's universal
quantification over keyword lists. -/
theorem hybrid_search_empty_keywords_cex :
    hybrid_search [rLow, rHigh] [] 2 = [rLow, rHigh] ∧
    ¬ ((hybrid_search [rLow, rHigh] [] 2).map
        (fun r => r.similarity_score)).Pairwise (fun a b => b ≤ a) := by
  refine ⟨rfl, ?_⟩
  intro hp
  have h2 : ((1 : ℚ) ≤ 0) := by
    have := (List.pairwise_cons.mp hp).1
    simpa [rLow, rHigh] using this (rHigh.similarity_score) (by simp [rHigh])
  norm_num at h2

/-- C7 (amended): for every non-empty keyword list, `hybrid_search` boosts
each result by `0.1` per case-insensitive keyword substring match clamped
to `1.0`, stable-sorts descending by adjusted score, and truncates to
`n_results` (so scores are descending, at most `n_results` results are
returned, and every returned score is at most `1.0`); for an empty (falsy)
keyword list it returns the first `n_results` results unchanged, in their
original order. -/
theorem hybrid_search_spec (semantic_results : List SearchResult) (keywords : List Str)
    (n_results : Nat) :
    (keywords = [] →
      hybrid_search semantic_results keywords n_results =
        semantic_results.take n_results) ∧
    (keywords ≠ [] →
      hybrid_search semantic_results keywords n_results =
        ((semantic_results.map (boostResult keywords)).mergeSort
          (fun a b => b.similarity_score ≤ a.similarity_score)).take n_results ∧
      (hybrid_search semantic_results keywords n_results).length ≤ n_results ∧
      ((hybrid_search semantic_results keywords n_results).map
        (fun r => r.similarity_score)).Pairwise (fun a b => b ≤ a) ∧
      (∀ r ∈ hybrid_search semantic_results keywords n_results,
        r.similarity_score ≤ 1 ∧
        ∃ r0 ∈ semantic_results, r = boostResult keywords r0)) := by
  constructor
  · intro h
    simp [hybrid_search, h]
  · intro h
    have hdef : hybrid_search semantic_results keywords n_results =
        ((semantic_results.map (boostResult keywords)).mergeSort
          (fun a b => b.similarity_score ≤ a.similarity_score)).take n_results := by
      simp [hybrid_search, h]
    refine ⟨hdef, ?_, ?_, ?_⟩
    · rw [hdef]
      exact List.length_take_le _ _
    · rw [hdef]
      have hs := @List.sorted_mergeSort SearchResult
        (fun a b : SearchResult => decide (b.similarity_score ≤ a.similarity_score))
        (fun a b c hab hbc => by
          simp only [decide_eq_true_eq] at hab hbc ⊢
          exact le_trans hbc hab)
        (fun a b => by
          simp only [Bool.or_eq_true, decide_eq_true_eq]
          exact le_total _ _)
        (semantic_results.map (boostResult keywords))
      have hs2 : (((semantic_results.map (boostResult keywords)).mergeSort
          (fun a b => b.similarity_score ≤ a.similarity_score)).Pairwise
            (fun a b => b.similarity_score ≤ a.similarity_score)) :=
        hs.imp (fun hab => of_decide_eq_true hab)
      have hs3 := hs2.sublist (List.take_sublist n_results _)
      exact List.pairwise_map.mpr hs3
    · intro r hr
      rw [hdef] at hr
      have hr2 := List.mem_of_mem_take hr
      have hr3 : r ∈ semantic_results.map (boostResult keywords) :=
        (List.mem_mergeSort).mp hr2
      obtain ⟨r0, hr0, rfl⟩ := List.mem_map.mp hr3
      exact ⟨min_le_right _ _, r0, hr0, rfl⟩

/-- Witness for C7 (amended) at concrete inputs, one per keyword-list
shape. -/
theorem hybrid_search_spec_witness :
    hybrid_search [rLow, rHigh] [] 1 = [rLow] ∧
    (hybrid_search [rLow, rHigh] ["beta".toList] 2).length ≤ 2 :=
  ⟨by rw [(hybrid_search_spec [rLow, rHigh] [] 1).1 rfl]; rfl,
   ((hybrid_search_spec [rLow, rHigh] ["beta".toList] 2).2 (by decide)).2.1⟩

/-! ## Chunker token bound (claim C1) -/

lemma joinSp_singleton (x : Str) : joinSp [x] = x := rfl

lemma joinSp_pair (o s : Str) : joinSp [o, s] = o ++ ' ' :: s := rfl

lemma joinSp_append_ne (l : List Str) (x : Str) (h : l ≠ []) :
    joinSp (l ++ [x]) = joinSp l ++ ' ' :: x := by
  induction l with
  | nil => exact absurd rfl h
  | cons a l ih =>
    cases l with
    | nil => rfl
    | cons b l2 =>
      show a ++ ' ' :: joinSp ((b :: l2) ++ [x]) = (a ++ ' ' :: joinSp (b :: l2)) ++ ' ' :: x
      rw [ih (by simp)]
      simp

lemma count_header_le (tok : Tokenizer) (header_tokens : Nat) (header_context : Str)
    (hH : header_context = [] ∧ header_tokens = 0 ∨
      header_tokens = count_tokens tok header_context)
    (happend : ∀ a b : Str,
      count_tokens tok (a ++ b) ≤ count_tokens tok a + count_tokens tok b)
    (x : Str) :
    count_tokens tok (header_context ++ x) ≤ header_tokens + count_tokens tok x := by
  rcases hH with ⟨he, h0⟩ | hEq
  · subst he
    subst h0
    simp
  · rw [hEq]
    exact happend _ _

lemma flush_good (tok : Tokenizer) (chunk_size chunk_overlap header_tokens : Nat)
    (header_context : Str) (atom : Str → Prop)
    (hH : header_context = [] ∧ header_tokens = 0 ∨
      header_tokens = count_tokens tok header_context)
    (hjoin : ∀ a b : Str,
      count_tokens tok (a ++ ' ' :: b) ≤ count_tokens tok a + count_tokens tok b)
    (happend : ∀ a b : Str,
      count_tokens tok (a ++ b) ≤ count_tokens tok a + count_tokens tok b)
    (cur : List Str) (t : Nat)
    (hb : BufInv tok chunk_size chunk_overlap header_tokens atom cur t) (hne : cur ≠ []) :
    GoodChunk tok chunk_size chunk_overlap header_tokens header_context atom
      (header_context ++ joinSp cur) := by
  obtain ⟨hcnt, hdisj⟩ := hb.2 hne
  have hhead := count_header_le tok header_tokens header_context hH happend (joinSp cur)
  rcases hdisj with hle | ⟨s, rfl, ht, hsl⟩ | ⟨o, s, rfl, ho, hsl⟩
  · left
    have h2 : header_tokens + t ≤ chunk_size := by
      have h1 : (header_tokens : Int) + t ≤ chunk_size := by omega
      exact_mod_cast h1
    omega
  · by_cases hs : (count_tokens tok s : Int) ≤ (chunk_size : Int) - header_tokens
    · left
      rw [joinSp_singleton] at hhead hcnt ⊢
      have h2 : header_tokens + count_tokens tok s ≤ chunk_size := by
        have h1 : (header_tokens : Int) + count_tokens tok s ≤ chunk_size := by omega
        exact_mod_cast h1
      omega
    · right
      exact ⟨s, hsl.resolve_left hs, by omega, Or.inl (by rw [joinSp_singleton])⟩
  · by_cases hs : (count_tokens tok s : Int) ≤ (chunk_size : Int) - header_tokens
    · left
      rw [joinSp_pair] at hhead hcnt ⊢
      have hj := hjoin o s
      have h2 : header_tokens + count_tokens tok s ≤ chunk_size := by
        have h1 : (header_tokens : Int) + count_tokens tok s ≤ chunk_size := by omega
        exact_mod_cast h1
      omega
    · right
      exact ⟨s, hsl.resolve_left hs, by omega,
        Or.inr ⟨o, ho, by rw [joinSp_pair, ← List.append_assoc]⟩⟩

lemma finalFlush_good (tok : Tokenizer) (chunk_size chunk_overlap header_tokens : Nat)
    (header_context : Str) (atom : Str → Prop)
    (hH : header_context = [] ∧ header_tokens = 0 ∨
      header_tokens = count_tokens tok header_context)
    (hjoin : ∀ a b : Str,
      count_tokens tok (a ++ ' ' :: b) ≤ count_tokens tok a + count_tokens tok b)
    (happend : ∀ a b : Str,
      count_tokens tok (a ++ b) ≤ count_tokens tok a + count_tokens tok b)
    (acc : ChunkAcc)
    (hacc : AccInv tok chunk_size chunk_overlap header_tokens header_context atom acc) :
    ∀ t ∈ finalFlush header_context acc,
      GoodChunk tok chunk_size chunk_overlap header_tokens header_context atom t := by
  intro t ht
  unfold finalFlush at ht
  by_cases h : acc.cur = []
  · rw [if_pos h] at ht
    exact hacc.1 t ht
  · rw [if_neg h] at ht
    rcases List.mem_append.mp ht with hold | hnew
    · exact hacc.1 t hold
    · rw [List.mem_singleton.mp hnew]
      exact flush_good tok chunk_size chunk_overlap header_tokens header_context atom hH
        hjoin happend acc.cur acc.curTokens hacc.2 h

lemma bufInv_overlapSeed (tok : Tokenizer) (chunk_size chunk_overlap header_tokens : Nat)
    (atom : Str → Prop) (cur : List Str) (next : Str) (hne : cur ≠ [])
    (hov : 1 ≤ chunk_overlap)
    (hdec : ∀ s ts, ts ≠ [] → ts <:+ tok.encode s →
      count_tokens tok (tok.decode ts) ≤ ts.length)
    (hnext : (count_tokens tok next : Int) ≤ (chunk_size : Int) - header_tokens ∨
      atom next) :
    BufInv tok chunk_size chunk_overlap header_tokens atom
      (overlapSeed tok chunk_overlap cur next)
      (count_tokens tok (joinSp (overlapSeed tok chunk_overlap cur next))) := by
  unfold overlapSeed
  by_cases h0 : get_overlap_text tok chunk_overlap cur = []
  · rw [if_pos h0]
    exact ⟨by simp, fun _ => ⟨le_refl _,
      Or.inr (Or.inl ⟨next, rfl, by rw [joinSp_singleton], hnext⟩)⟩⟩
  · rw [if_neg h0]
    refine ⟨by simp, fun _ => ⟨le_refl _, Or.inr (Or.inr ⟨_, next, rfl, ?_, hnext⟩)⟩⟩
    exact (get_overlap_text_spec tok chunk_overlap cur hne hov
      (fun ts h1 h2 => hdec (joinSp cur) ts h1 h2)).1

lemma bufInv_append (tok : Tokenizer) (chunk_size chunk_overlap header_tokens : Nat)
    (atom : Str → Prop) (cur : List Str) (t : Nat) (x : Str)
    (hb : BufInv tok chunk_size chunk_overlap header_tokens atom cur t)
    (hjoin : ∀ a b : Str,
      count_tokens tok (a ++ ' ' :: b) ≤ count_tokens tok a + count_tokens tok b)
    (hle : ¬ ((t : Int) + count_tokens tok x > (chunk_size : Int) - header_tokens)) :
    BufInv tok chunk_size chunk_overlap header_tokens atom (cur ++ [x])
      (t + count_tokens tok x) := by
  refine ⟨by simp, fun _ => ⟨?_, Or.inl (by push_cast; omega)⟩⟩
  by_cases hc : cur = []
  · subst hc
    rw [hb.1 rfl]
    simp [joinSp_singleton]
  · rw [joinSp_append_ne cur x hc]
    have hcn := (hb.2 hc).1
    have hj := hjoin (joinSp cur) x
    omega

lemma sentStep_inv (tok : Tokenizer) (chunk_size chunk_overlap header_tokens : Nat)
    (header_context : Str) (atom : Str → Prop)
    (hH : header_context = [] ∧ header_tokens = 0 ∨
      header_tokens = count_tokens tok header_context)
    (hjoin : ∀ a b : Str,
      count_tokens tok (a ++ ' ' :: b) ≤ count_tokens tok a + count_tokens tok b)
    (happend : ∀ a b : Str,
      count_tokens tok (a ++ b) ≤ count_tokens tok a + count_tokens tok b)
    (hdec : ∀ s ts, ts ≠ [] → ts <:+ tok.encode s →
      count_tokens tok (tok.decode ts) ≤ ts.length)
    (hov : 1 ≤ chunk_overlap)
    (acc : ChunkAcc) (sentence : Str) (hatom : atom sentence)
    (hI : AccInv tok chunk_size chunk_overlap header_tokens header_context atom acc) :
    AccInv tok chunk_size chunk_overlap header_tokens header_context atom
      (sentStep tok chunk_size chunk_overlap header_tokens header_context acc sentence) := by
  obtain ⟨hchunks, hbuf⟩ := hI
  unfold sentStep
  by_cases h1 : (acc.curTokens : Int) + count_tokens tok sentence >
      (chunk_size : Int) - header_tokens
  · rw [if_pos h1]
    by_cases h2 : acc.cur ≠ []
    · rw [if_pos h2]
      constructor
      · intro t ht
        rcases List.mem_append.mp ht with hold | hnew
        · exact hchunks t hold
        · rw [List.mem_singleton.mp hnew]
          exact flush_good tok chunk_size chunk_overlap header_tokens header_context atom
            hH hjoin happend acc.cur acc.curTokens hbuf h2
      · exact bufInv_overlapSeed tok chunk_size chunk_overlap header_tokens atom acc.cur
          sentence h2 hov hdec (Or.inr hatom)
    · rw [if_neg h2]
      have hc : acc.cur = [] := of_not_not h2
      have ht0 : acc.curTokens = 0 := hbuf.1 hc
      constructor
      · intro t ht
        rcases List.mem_append.mp ht with hold | hnew
        · exact hchunks t hold
        · rw [List.mem_singleton.mp hnew]
          right
          refine ⟨sentence, hatom, ?_, Or.inl rfl⟩
          rw [ht0] at h1
          omega
      · exact ⟨fun _ => rfl, fun hW => absurd rfl hW⟩
  · rw [if_neg h1]
    exact ⟨hchunks, bufInv_append tok chunk_size chunk_overlap header_tokens atom acc.cur
      acc.curTokens sentence hbuf hjoin h1⟩

lemma foldl_sentStep_inv (tok : Tokenizer) (chunk_size chunk_overlap header_tokens : Nat)
    (header_context : Str) (atom : Str → Prop)
    (hH : header_context = [] ∧ header_tokens = 0 ∨
      header_tokens = count_tokens tok header_context)
    (hjoin : ∀ a b : Str,
      count_tokens tok (a ++ ' ' :: b) ≤ count_tokens tok a + count_tokens tok b)
    (happend : ∀ a b : Str,
      count_tokens tok (a ++ b) ≤ count_tokens tok a + count_tokens tok b)
    (hdec : ∀ s ts, ts ≠ [] → ts <:+ tok.encode s →
      count_tokens tok (tok.decode ts) ≤ ts.length)
    (hov : 1 ≤ chunk_overlap) :
    ∀ sentences : List Str, (∀ x ∈ sentences, atom x) →
      ∀ acc : ChunkAcc,
        AccInv tok chunk_size chunk_overlap header_tokens header_context atom acc →
        AccInv tok chunk_size chunk_overlap header_tokens header_context atom
          (sentences.foldl
            (sentStep tok chunk_size chunk_overlap header_tokens header_context) acc) := by
  intro sentences
  induction sentences with
  | nil => exact fun _ acc h => h
  | cons s ss ih =>
    intro hall acc h
    exact ih (fun x hx => hall x (List.mem_cons_of_mem _ hx)) _
      (sentStep_inv tok chunk_size chunk_overlap header_tokens header_context atom hH
        hjoin happend hdec hov acc s (hall s (List.mem_cons_self _ _)) h)

lemma accInv_init (tok : Tokenizer) (chunk_size chunk_overlap header_tokens : Nat)
    (header_context : Str) (atom : Str → Prop) :
    AccInv tok chunk_size chunk_overlap header_tokens header_context atom ⟨[], [], 0⟩ :=
  ⟨by simp, fun _ => rfl, fun hW => absurd rfl hW⟩

lemma create_chunks_from_sentences_good (tok : Tokenizer)
    (chunk_size chunk_overlap header_tokens : Nat) (header_context : Str)
    (atom : Str → Prop)
    (hH : header_context = [] ∧ header_tokens = 0 ∨
      header_tokens = count_tokens tok header_context)
    (hjoin : ∀ a b : Str,
      count_tokens tok (a ++ ' ' :: b) ≤ count_tokens tok a + count_tokens tok b)
    (happend : ∀ a b : Str,
      count_tokens tok (a ++ b) ≤ count_tokens tok a + count_tokens tok b)
    (hdec : ∀ s ts, ts ≠ [] → ts <:+ tok.encode s →
      count_tokens tok (tok.decode ts) ≤ ts.length)
    (hov : 1 ≤ chunk_overlap) (sentences : List Str)
    (hall : ∀ x ∈ sentences, atom x) :
    ∀ t ∈ create_chunks_from_sentences tok chunk_size chunk_overlap header_context
        header_tokens sentences,
      GoodChunk tok chunk_size chunk_overlap header_tokens header_context atom t := by
  intro t ht
  unfold create_chunks_from_sentences at ht
  exact finalFlush_good tok chunk_size chunk_overlap header_tokens header_context atom hH
    hjoin happend _
    (foldl_sentStep_inv tok chunk_size chunk_overlap header_tokens header_context atom hH
      hjoin happend hdec hov sentences hall ⟨[], [], 0⟩
      (accInv_init tok chunk_size chunk_overlap header_tokens header_context atom))
    t ht

lemma paraStep_inv (tok : Tokenizer) (chunk_size chunk_overlap header_tokens : Nat)
    (header_context : Str) (atom : Str → Prop)
    (hH : header_context = [] ∧ header_tokens = 0 ∨
      header_tokens = count_tokens tok header_context)
    (hjoin : ∀ a b : Str,
      count_tokens tok (a ++ ' ' :: b) ≤ count_tokens tok a + count_tokens tok b)
    (happend : ∀ a b : Str,
      count_tokens tok (a ++ b) ≤ count_tokens tok a + count_tokens tok b)
    (hdec : ∀ s ts, ts ≠ [] → ts <:+ tok.encode s →
      count_tokens tok (tok.decode ts) ≤ ts.length)
    (hov : 1 ≤ chunk_overlap)
    (acc : ChunkAcc) (para : Str)
    (hpatom : ∀ x ∈ split_into_sentences para, atom x)
    (hI : AccInv tok chunk_size chunk_overlap header_tokens header_context atom acc) :
    AccInv tok chunk_size chunk_overlap header_tokens header_context atom
      (paraStep tok chunk_size chunk_overlap header_context header_tokens acc para) := by
  obtain ⟨hchunks, hbuf⟩ := hI
  unfold paraStep
  by_cases h1 : (count_tokens tok para : Int) > (chunk_size : Int) - header_tokens
  · rw [if_pos h1]
    constructor
    · intro t ht
      rcases List.mem_append.mp ht with hold | hsub
      · by_cases h2 : acc.cur ≠ []
        · rw [if_pos h2] at hold
          rcases List.mem_append.mp hold with h3 | h4
          · exact hchunks t h3
          · rw [List.mem_singleton.mp h4]
            exact flush_good tok chunk_size chunk_overlap header_tokens header_context
              atom hH hjoin happend acc.cur acc.curTokens hbuf h2
        · rw [if_neg h2] at hold
          exact hchunks t hold
      · exact create_chunks_from_sentences_good tok chunk_size chunk_overlap header_tokens
          header_context atom hH hjoin happend hdec hov (split_into_sentences para)
          hpatom t hsub
    · by_cases h2 : acc.cur ≠ []
      · simp only [if_pos h2]
        exact ⟨fun _ => rfl, fun hW => absurd rfl hW⟩
      · simp only [if_neg h2]
        exact hbuf
  · rw [if_neg h1]
    by_cases h1' : (acc.curTokens : Int) + count_tokens tok para >
        (chunk_size : Int) - header_tokens
    · rw [if_pos h1']
      by_cases h2 : acc.cur ≠ []
      · rw [if_pos h2]
        constructor
        · intro t ht
          rcases List.mem_append.mp ht with hold | hnew
          · exact hchunks t hold
          · rw [List.mem_singleton.mp hnew]
            exact flush_good tok chunk_size chunk_overlap header_tokens header_context
              atom hH hjoin happend acc.cur acc.curTokens hbuf h2
        · exact bufInv_overlapSeed tok chunk_size chunk_overlap header_tokens atom acc.cur
            para h2 hov hdec (Or.inl (by omega))
      · rw [if_neg h2]
        refine ⟨hchunks, by simp, fun _ => ⟨le_of_eq (by rw [joinSp_singleton]), ?_⟩⟩
        exact Or.inr (Or.inl ⟨para, rfl, rfl, Or.inl (by omega)⟩)
    · rw [if_neg h1']
      exact ⟨hchunks, bufInv_append tok chunk_size chunk_overlap header_tokens atom acc.cur
        acc.curTokens para hbuf hjoin h1'⟩

lemma foldl_paraStep_inv (tok : Tokenizer) (chunk_size chunk_overlap header_tokens : Nat)
    (header_context : Str) (atom : Str → Prop)
    (hH : header_context = [] ∧ header_tokens = 0 ∨
      header_tokens = count_tokens tok header_context)
    (hjoin : ∀ a b : Str,
      count_tokens tok (a ++ ' ' :: b) ≤ count_tokens tok a + count_tokens tok b)
    (happend : ∀ a b : Str,
      count_tokens tok (a ++ b) ≤ count_tokens tok a + count_tokens tok b)
    (hdec : ∀ s ts, ts ≠ [] → ts <:+ tok.encode s →
      count_tokens tok (tok.decode ts) ≤ ts.length)
    (hov : 1 ≤ chunk_overlap) :
    ∀ paragraphs : List Str,
      (∀ p ∈ paragraphs, ∀ x ∈ split_into_sentences p, atom x) →
      ∀ acc : ChunkAcc,
        AccInv tok chunk_size chunk_overlap header_tokens header_context atom acc →
        AccInv tok chunk_size chunk_overlap header_tokens header_context atom
          (paragraphs.foldl
            (paraStep tok chunk_size chunk_overlap header_context header_tokens) acc) := by
  intro paragraphs
  induction paragraphs with
  | nil => exact fun _ acc h => h
  | cons p ps ih =>
    intro hall acc h
    exact ih (fun q hq => hall q (List.mem_cons_of_mem _ hq)) _
      (paraStep_inv tok chunk_size chunk_overlap header_tokens header_context atom hH
        hjoin happend hdec hov acc p (hall p (List.mem_cons_self _ _)) h)

lemma headerTokens_cases (tok : Tokenizer) (section_header : Str) :
    headerContext section_header = [] ∧ headerTokens tok section_header = 0 ∨
      headerTokens tok section_header = count_tokens tok (headerContext section_header) := by
  by_cases h : section_header = []
  · left
    exact ⟨by simp [headerContext, h], by simp [headerTokens, h]⟩
  · right
    simp [headerTokens, h]

lemma create_chunks_from_paragraphs_good (tok : Tokenizer)
    (chunk_size chunk_overlap : Nat) (section_header : Str) (atom : Str → Prop)
    (hjoin : ∀ a b : Str,
      count_tokens tok (a ++ ' ' :: b) ≤ count_tokens tok a + count_tokens tok b)
    (happend : ∀ a b : Str,
      count_tokens tok (a ++ b) ≤ count_tokens tok a + count_tokens tok b)
    (hdec : ∀ s ts, ts ≠ [] → ts <:+ tok.encode s →
      count_tokens tok (tok.decode ts) ≤ ts.length)
    (hov : 1 ≤ chunk_overlap) (paragraphs : List Str)
    (hall : ∀ p ∈ paragraphs, ∀ x ∈ split_into_sentences p, atom x) :
    ∀ t ∈ create_chunks_from_paragraphs tok chunk_size chunk_overlap section_header
        paragraphs,
      GoodChunk tok chunk_size chunk_overlap (headerTokens tok section_header)
        (headerContext section_header) atom t := by
  intro t ht
  unfold create_chunks_from_paragraphs at ht
  have hH := headerTokens_cases tok section_header
  exact finalFlush_good tok chunk_size chunk_overlap (headerTokens tok section_header)
    (headerContext section_header) atom hH hjoin happend _
    (foldl_paraStep_inv tok chunk_size chunk_overlap (headerTokens tok section_header)
      (headerContext section_header) atom hH hjoin happend hdec hov paragraphs hall
      ⟨[], [], 0⟩
      (accInv_init tok chunk_size chunk_overlap (headerTokens tok section_header)
        (headerContext section_header) atom))
    t ht

lemma mem_foldl_chunkRecordStep (tok : Tokenizer) (page : Page) :
    ∀ (texts : List Str) (st : List Chunk × Nat),
      ∀ c ∈ (texts.foldl (chunkRecordStep tok page) st).1,
        c ∈ st.1 ∨ ∃ ct ∈ texts, c.text = ct ∧ c.section_header = page.section_header ∧
          c.token_count = count_tokens tok ct := by
  intro texts
  induction texts with
  | nil => exact fun st c hc => Or.inl hc
  | cons x xs ih =>
    intro st c hc
    simp only [List.foldl_cons] at hc
    rcases ih _ c hc with hmem | ⟨ct, hct, hrest⟩
    · unfold chunkRecordStep at hmem
      rcases List.mem_append.mp hmem with h1 | h2
      · exact Or.inl h1
      · right
        refine ⟨x, List.mem_cons_self _ _, ?_⟩
        rw [List.mem_singleton.mp h2]
        exact ⟨rfl, rfl, rfl⟩
    · exact Or.inr ⟨ct, List.mem_cons_of_mem _ hct, hrest⟩

lemma mem_foldl_chunkPageStep (tok : Tokenizer) (chunk_size chunk_overlap : Nat) :
    ∀ (pages : List Page) (st : List Chunk × Nat),
      ∀ c ∈ (pages.foldl (chunkPageStep tok chunk_size chunk_overlap) st).1,
        c ∈ st.1 ∨ ∃ page ∈ pages,
          c.text ∈ create_chunks_from_paragraphs tok chunk_size chunk_overlap
            page.section_header (split_into_paragraphs page.text) ∧
          c.section_header = page.section_header ∧
          c.token_count = count_tokens tok c.text := by
  intro pages
  induction pages with
  | nil => exact fun st c hc => Or.inl hc
  | cons p ps ih =>
    intro st c hc
    simp only [List.foldl_cons] at hc
    rcases ih _ c hc with hmem | ⟨page, hp, hrest⟩
    · unfold chunkPageStep at hmem
      rcases mem_foldl_chunkRecordStep tok p _ st c hmem with h1 | ⟨ct, hct, h2, h3, h4⟩
      · exact Or.inl h1
      · right
        exact ⟨p, List.mem_cons_self _ _, by rw [h2]; exact hct, h3, by rw [h4, h2]⟩
    · exact Or.inr ⟨page, List.mem_cons_of_mem _ hp, hrest⟩

/-- C1 (amended): for every tokenizer whose token counts are subadditive
across concatenation and space-joins and whose decode of a non-empty
encoded suffix does not gain tokens, and for every configuration with
`chunk_overlap ≥ 1`, every chunk emitted by `chunk_documents` either has
`token_count ≤ chunk_size + chunk_overlap`, or consists of exactly one
oversized atomic sentence `s` of the input — a member of
`split_into_sentences` of one of the page's paragraphs, with token count
above the usable budget `chunk_size - header_tokens` — emitted as its own
chunk after the section-header context, optionally preceded by injected
overlap text of at most `chunk_overlap` tokens.  (The original
`chunk_size` bound fails because flushes re-inject overlap text on top of
an almost-full buffer, and for `chunk_overlap = 0` no bound holds at all,
since Python's `tokens[-0:]` re-injects the entire buffer.) -/
theorem chunk_documents_token_bound (tok : Tokenizer) (chunk_size chunk_overlap : Nat)
    (pages_data : List Page)
    (hjoin : ∀ a b : Str,
      count_tokens tok (a ++ ' ' :: b) ≤ count_tokens tok a + count_tokens tok b)
    (happend : ∀ a b : Str,
      count_tokens tok (a ++ b) ≤ count_tokens tok a + count_tokens tok b)
    (hdec : ∀ s ts, ts ≠ [] → ts <:+ tok.encode s →
      count_tokens tok (tok.decode ts) ≤ ts.length)
    (hov : 1 ≤ chunk_overlap) :
    ∀ c ∈ chunk_documents tok chunk_size chunk_overlap pages_data,
      c.token_count ≤ chunk_size + chunk_overlap ∨
      ∃ page ∈ pages_data, ∃ para ∈ split_into_paragraphs page.text,
        ∃ s ∈ split_into_sentences para,
          c.section_header = page.section_header ∧
          (chunk_size : Int) - headerTokens tok page.section_header <
            count_tokens tok s ∧
          (c.text = headerContext page.section_header ++ s ∨
            ∃ o : Str, count_tokens tok o ≤ chunk_overlap ∧
              c.text = headerContext page.section_header ++ o ++ ' ' :: s) := by
  intro c hc
  unfold chunk_documents at hc
  rcases mem_foldl_chunkPageStep tok chunk_size chunk_overlap pages_data ([], 0) c hc with
    h0 | ⟨page, hpage, hmem, hsh, htc⟩
  · simp at h0
  · have hg := create_chunks_from_paragraphs_good tok chunk_size chunk_overlap
      page.section_header
      (fun s => ∃ para ∈ split_into_paragraphs page.text, s ∈ split_into_sentences para)
      hjoin happend hdec hov (split_into_paragraphs page.text)
      (fun p hp x hx => ⟨p, hp, hx⟩) c.text hmem
    unfold GoodChunk OversizedPiece at hg
    rcases hg with hle | ⟨s, ⟨para, hpara, hs⟩, hbig, hshape⟩
    · left
      rw [htc]
      exact hle
    · right
      exact ⟨page, hpage, para, hpara, s, hs, hsh, hbig, hshape⟩

/-- C1 counterexample: with the word tokenizer, `chunk_size = 3` and
`chunk_overlap = 2` (inside the claimed `1 ≤ chunk_size`,
`0 ≤ overlap < chunk_size` range), the page of three 3-token paragraphs
yields the chunk `"b c d e f"` with `token_count` 5 > 3, and that chunk is
not a single oversized atomic sentence of the input (every input sentence
has 3 ≤ 3 tokens), refuting the claimed `chunk_size` bound. -/
theorem chunk_documents_token_bound_cex :
    ¬ (∀ c ∈ chunk_documents wordTok 3 2 [pageEx],
        c.token_count ≤ 3 ∨
        ∃ page ∈ [pageEx], ∃ para ∈ split_into_paragraphs page.text,
          ∃ s ∈ split_into_sentences para,
            c.text = headerContext page.section_header ++ s ∧
            (3 : Int) - headerTokens wordTok page.section_header <
              count_tokens wordTok s) := by
  decide

/-- Witness for C1 (amended): the word tokenizer satisfies all three
tokenizer hypotheses, and the 5-token chunk of the counterexample
configuration satisfies the amended `chunk_size + chunk_overlap` bound. -/
theorem chunk_documents_token_bound_witness :
    chunkEx.token_count ≤ 3 + 2 ∨
    ∃ page ∈ [pageEx], ∃ para ∈ split_into_paragraphs page.text,
      ∃ s ∈ split_into_sentences para,
        chunkEx.section_header = page.section_header ∧
        (3 : Int) - headerTokens wordTok page.section_header <
          count_tokens wordTok s ∧
        (chunkEx.text = headerContext page.section_header ++ s ∨
          ∃ o : Str, count_tokens wordTok o ≤ 2 ∧
            chunkEx.text = headerContext page.section_header ++ o ++ ' ' :: s) :=
  chunk_documents_token_bound wordTok 3 2 [pageEx] wordTok_join_le wordTok_append_le
    (fun s ts h1 h2 => wordTok_decode_suffix s ts h1 h2) (by decide) chunkEx (by decide)

end CMS
